import Mathlib

/-!
Verification of the hmpo-config configuration loader (`lib/config.js`).

The development shallowly embeds the `Config` class: configuration values
are a JSON-like inductive type, the store state is a structure holding the
application root, the file cache and the accumulated configuration, and the
filesystem together with the external parsers (js-yaml, JSON5) are
modelled as explicit inputs.  Each operation of the class becomes a pure
function threading the store state and reporting thrown errors through
`Except`.
-/

set_option maxHeartbeats 1000000

namespace HmpoConfig

mutual
/-- JSON-like configuration values; `vObj` carries an association list of
fields (JavaScript objects, keys unique in well-formed values). -/
inductive Value : Type where
  | vNull : Value
  | vBool : Bool → Value
  | vNum : Int → Value
  | vStr : String → Value
  | vObj : Fields → Value

/-- Association list of object fields. -/
inductive Fields : Type where
  | nil : Fields
  | cons : String → Value → Fields → Fields
end

/-- First-match lookup of a key among object fields. -/
def lookupF (k : String) : Fields → Option Value
  | .nil => none
  | .cons k1 v rest => if k1 = k then some v else lookupF k rest

/-- Concatenation of field lists. -/
def appendF : Fields → Fields → Fields
  | .nil, b => b
  | .cons k v rest, b => .cons k v (appendF rest b)

/-- Fields of `b` whose key does not occur in `a`. -/
def restF (a : Fields) : Fields → Fields
  | .nil => .nil
  | .cons k w rest =>
    if (lookupF k a).isSome then restF a rest
    else .cons k w (restF a rest)

mutual
/-- Modelled from the spec: the deep merge of the external
`deep-clone-merge` dependency (`extend`), which is not part of this
repository's sources.  Object-valued keys merge recursively; keys with a
non-object value on the right are replaced by the right value; keys
present in only one side are kept. -/
def deepMergeExtend : Value → Value → Value
  | .vObj a, .vObj b => .vObj (appendF (overrideF a b) (restF a b))
  | _, b => b

def overrideF : Fields → Fields → Fields
  | .nil, _ => .nil
  | .cons k v rest, b =>
    match lookupF k b with
    | some w => .cons k (deepMergeExtend v w) (overrideF rest b)
    | none => .cons k v (overrideF rest b)

end

/-- Field list produced by merging two objects. -/
def mergeFields (a b : Fields) : Fields :=
  appendF (overrideF a b) (restF a b)

/-- JavaScript truthiness of a value (`undefined`/`null` are modelled by
`vNull`; every object, including the empty one, is truthy). -/
def Value.truthy : Value → Bool
  | .vNull => false
  | .vBool b => b
  | .vNum n => n != 0
  | .vStr s => s != ""
  | .vObj _ => true

mutual
/-- Well-formedness: object keys are unique at every level, as is forced
for genuine JavaScript objects. -/
def Value.wf : Value → Bool
  | .vObj f => Fields.wfF f
  | _ => true

/-- Well-formedness of a field list. -/
def Fields.wfF : Fields → Bool
  | .nil => true
  | .cons k v rest => !(lookupF k rest).isSome && Value.wf v && Fields.wfF rest
end

mutual
/-- Size measure for strong induction over values. -/
def Value.size : Value → Nat
  | .vObj f => Fields.sizeF f + 1
  | _ => 1

/-- Size measure for field lists. -/
def Fields.sizeF : Fields → Nat
  | .nil => 0
  | .cons _ v rest => Value.size v + Fields.sizeF rest + 1
end

/-- Membership of a key/value entry in a field list. -/
def MemF (k : String) (v : Value) : Fields → Prop
  | .nil => False
  | .cons k1 v1 rest => (k1 = k ∧ v1 = v) ∨ MemF k v rest

/-- JavaScript property access (`obj.k`): `vNull` models `undefined` for
absent keys or non-object receivers. -/
def getField (v : Value) (k : String) : Value :=
  match v with
  | .vObj f => (lookupF k f).getD .vNull
  | _ => .vNull

/-- Modelled from the spec: the raw text of a configuration file is
represented by the outcome each external parser (js-yaml `load`, JSON5
`parse`) would produce on it; neither parser is part of this repository's
sources.  An `Except.error` carries the parser's message. -/
structure Content : Type where
  yamlResult : Except String Value
  jsonResult : Except String Value

/-- Modelled from the spec: the filesystem, mapping an absolute path to
the content of the file there, or `none` when no file exists. -/
def Disk : Type := String → Option Content

/-- Modelled from the spec: Node's `path.resolve(appRoot, path)` — an
already absolute path (leading slash) is kept, otherwise the path is
joined to the root. -/
def resolvePath (root path : String) : String :=
  match path.data with
  | [] => root ++ "/" ++ path
  | c :: _ => if c = '/' then path else root ++ "/" ++ path

/-- Modelled from the spec: Node's `path.extname` — the suffix of the
basename from its last dot, empty when the basename has no dot after its
first character. -/
def extname (p : String) : String :=
  let base := (p.data.reverse.takeWhile (fun c => c ≠ '/')).reverse
  match base with
  | [] => ""
  | _ :: rest =>
    let revTail := rest.reverse.takeWhile (fun c => c ≠ '.')
    if revTail.length = rest.length then ""
    else String.mk ('.' :: revTail.reverse)

/-- First-match lookup in the file cache (JavaScript object indexing). -/
def lookupPath (p : String) : List (String × Value) → Option Value
  | [] => none
  | (k, v) :: rest => if k = p then some v else lookupPath p rest

/-- Errors thrown by the embedded operations: `load` is the wrapped error
thrown by `loadFile` (with its `fileName` property and rewritten message);
`parse` is a raw parser error escaping `addString`. -/
inductive JsError : Type where
  | load : String → String → JsError
  | parse : String → JsError

/-- State of a `Config` instance: the application root, the file cache and
the accumulated configuration (`none` before the first mutating call). -/
structure Config : Type where
  appRoot : String
  fileCache : List (String × Value)
  config : Option Value

/-- The `Config` constructor with an explicit application root. -/
def Config.new (appRoot : String) : Config :=
  { appRoot := appRoot, fileCache := [], config := none }

/-- `Config.parseFile(content, ext)`: dispatch on the extension — `.yaml`
and `.yml` select the YAML parser, `.json`, `.json5` and everything else
(including a missing extension argument, `none`) select JSON5. -/
def Config.parseFile (content : Content) (ext : Option String) : Except String Value :=
  if ext = some (".yaml") ∨ ext = some (".yml") then content.yamlResult
  else content.jsonResult

/-- The disk-touching tail of `Config.loadFile(path)`, reached when the
cache has no truthy entry for the resolved path `p`: cache an empty object
for a missing file, else read and parse the file, caching the result; a
parse failure is rethrown wrapped with the file path.  The returned `Bool`
records that the disk was accessed. -/
def Config.loadRead (c : Config) (disk : Disk) (p : String) :
    Except JsError (Value × Config × Bool) :=
  match disk p with
  | none =>
    .ok (.vObj .nil, { c with fileCache := (p, .vObj .nil) :: c.fileCache }, true)
  | some content =>
    match Config.parseFile content (some (extname p)) with
    | .ok data =>
      .ok (data, { c with fileCache := (p, data) :: c.fileCache }, true)
    | .error msg =>
      .error (.load p ("Error loading config " ++ p ++ ": " ++ msg))

/-- `Config.loadFile(path)`: resolve the path against the root, serve a
truthy cached value without touching the disk, otherwise fall through to
`loadRead`. -/
def Config.loadFile (c : Config) (disk : Disk) (path : String) :
    Except JsError (Value × Config × Bool) :=
  match lookupPath (resolvePath c.appRoot path) c.fileCache with
  | some d =>
    if d.truthy then .ok (d, c, false)
    else Config.loadRead c disk (resolvePath c.appRoot path)
  | none => Config.loadRead c disk (resolvePath c.appRoot path)

/-- `Config.getPackage()`: load `package.json` through the caching path. -/
def Config.getPackage (c : Config) (disk : Disk) :
    Except JsError (Value × Config × Bool) :=
  c.loadFile disk ("package.json")

/-- `Config.getDefaults()`: `{APP_NAME, APP_VERSION, APP_ROOT}` derived
from two `getPackage()` calls and the stored root. -/
def Config.getDefaults (c : Config) (disk : Disk) :
    Except JsError (Value × Config × Bool) :=
  match c.getPackage disk with
  | .error e => .error e
  | .ok (pkg1, c1, r1) =>
    match c1.getPackage disk with
    | .error e => .error e
    | .ok (pkg2, c2, r2) =>
      .ok (.vObj (.cons ("APP_NAME") (getField pkg1 ("name"))
        (.cons ("APP_VERSION") (getField pkg2 ("version"))
        (.cons ("APP_ROOT") (.vStr c.appRoot) .nil))), c2, r1 || r2)

/-- `Config.toJSON()`: `this.config || this.getDefaults()` — the truthy
accumulated configuration, or else the defaults. -/
def Config.toJSON (c : Config) (disk : Disk) :
    Except JsError (Value × Config × Bool) :=
  match c.config with
  | some v => if v.truthy then .ok (v, c, false) else c.getDefaults disk
  | none => c.getDefaults disk

/-- `Config.addConfig(config)`: deep-merge a fragment on top of
`toJSON()` and store the result. -/
def Config.addConfig (c : Config) (disk : Disk) (frag : Value) :
    Except JsError (Config × Bool) :=
  match c.toJSON disk with
  | .error e => .error e
  | .ok (base, c1, r) =>
    .ok ({ c1 with config := some (deepMergeExtend base frag) }, r)

/-- `Config.addFile(path)`: load the file, then merge the parsed value. -/
def Config.addFile (c : Config) (disk : Disk) (path : String) :
    Except JsError (Config × Bool) :=
  match c.loadFile disk path with
  | .error e => .error e
  | .ok (v, c1, r1) =>
    match c1.addConfig disk v with
    | .error e => .error e
    | .ok (c2, r2) => .ok (c2, r1 || r2)

/-- `Config.addString(str)`: parse the raw string with `parseFile` given
no extension argument (JavaScript `undefined`), then merge. -/
def Config.addString (c : Config) (disk : Disk) (s : Content) :
    Except JsError (Config × Bool) :=
  match Config.parseFile s none with
  | .error msg => .error (.parse msg)
  | .ok v => c.addConfig disk v

/-- One mutating call on the store. -/
inductive Op : Type where
  | opConfig : Value → Op
  | opFile : String → Op
  | opString : Content → Op

/-- Run one mutating call. -/
def Config.runOp (c : Config) (disk : Disk) : Op → Except JsError (Config × Bool)
  | .opConfig v => c.addConfig disk v
  | .opFile p => c.addFile disk p
  | .opString s => c.addString disk s

/-- Run a sequence of mutating calls, stopping at the first thrown
error. -/
def Config.runOps (c : Config) (disk : Disk) : List Op → Except JsError Config
  | [] => .ok c
  | op :: rest =>
    match c.runOp disk op with
    | .error e => .error e
    | .ok (c1, _) => c1.runOps disk rest

theorem lookupF_appendF (k : String) :
    ∀ (x y : Fields), lookupF k (appendF x y) =
      match lookupF k x with
      | some v => some v
      | none => lookupF k y
  | .nil, y => by simp [appendF, lookupF]
  | .cons k1 v rest, y => by
    by_cases h : k1 = k <;> simp [appendF, lookupF, h, lookupF_appendF k rest y]

theorem lookupF_restF (k : String) (a : Fields) :
    ∀ (b : Fields), lookupF k (restF a b) =
      match lookupF k a with
      | some _ => none
      | none => lookupF k b
  | .nil => by cases h : lookupF k a <;> simp [restF, lookupF, h]
  | .cons k1 w rest => by
    by_cases h : k1 = k
    · subst h
      cases h1 : lookupF k1 a <;>
        simp [restF, lookupF, h1, lookupF_restF k1 a rest]
    · cases h1 : lookupF k1 a <;>
        cases h2 : lookupF k a <;>
          simp [restF, lookupF, h, h1, h2, lookupF_restF k a rest]

theorem lookupF_overrideF (k : String) :
    ∀ (a b : Fields), lookupF k (overrideF a b) =
      (lookupF k a).map (fun v =>
        match lookupF k b with
        | some w => deepMergeExtend v w
        | none => v)
  | .nil, b => by simp [overrideF, lookupF]
  | .cons k1 v rest, b => by
    by_cases h : k1 = k
    · subst h
      cases h1 : lookupF k1 b <;> simp [overrideF, lookupF, h1]
    · cases h1 : lookupF k1 b <;>
        simp [overrideF, lookupF, h, h1, lookupF_overrideF k rest b]

/-- The per-key law of the deep merge: a key present in both objects gets
the (recursively) merged value, a key present in only one keeps that
side's value. -/
theorem lookupF_mergeFields (k : String) (a b : Fields) :
    lookupF k (mergeFields a b) =
      match lookupF k a, lookupF k b with
      | some v, some w => some (deepMergeExtend v w)
      | some v, none => some v
      | none, o => o := by
  unfold mergeFields
  rw [lookupF_appendF, lookupF_overrideF, lookupF_restF]
  cases h1 : lookupF k a <;> cases h2 : lookupF k b <;> simp

theorem appendF_nil_right : ∀ (f : Fields), appendF f .nil = f
  | .nil => rfl
  | .cons k v rest => by simp [appendF, appendF_nil_right rest]

theorem overrideF_nil_right : ∀ (f : Fields), overrideF f .nil = f
  | .nil => rfl
  | .cons k v rest => by simp [overrideF, lookupF, overrideF_nil_right rest]

/-- Merging the empty object on the right is the identity on objects. -/
theorem merge_nil_right (f : Fields) :
    deepMergeExtend (.vObj f) (.vObj .nil) = .vObj f := by
  simp [deepMergeExtend, restF, overrideF_nil_right, appendF_nil_right]

theorem one_le_size : ∀ (v : Value), 1 ≤ v.size
  | .vNull | .vBool _ | .vNum _ | .vStr _ => le_refl 1
  | .vObj _ => by simp [Value.size]

theorem memF_of_lookupF {k : String} {v : Value} :
    ∀ {f : Fields}, lookupF k f = some v → MemF k v f
  | .nil, h => by simp [lookupF] at h
  | .cons k1 v1 rest, h => by
    by_cases h1 : k1 = k
    · simp [lookupF, h1] at h
      exact Or.inl ⟨h1, h⟩
    · simp [lookupF, h1] at h
      exact Or.inr (memF_of_lookupF h)

theorem isSome_lookupF_of_memF {k : String} {v : Value} :
    ∀ {f : Fields}, MemF k v f → (lookupF k f).isSome = true
  | .nil, h => absurd h id
  | .cons k1 v1 rest, h => by
    rcases h with ⟨hk, _⟩ | h
    · simp [lookupF, hk]
    · by_cases h1 : k1 = k
      · simp [lookupF, h1]
      · simp [lookupF, h1]
        exact isSome_lookupF_of_memF h

theorem lookupF_of_memF_wfF {k : String} {v : Value} :
    ∀ {f : Fields}, Fields.wfF f = true → MemF k v f → lookupF k f = some v
  | .nil, _, h => absurd h id
  | .cons k1 v1 rest, hwf, h => by
    simp [Fields.wfF, Bool.and_eq_true] at hwf
    rcases h with ⟨hk, hv⟩ | h
    · subst hk hv
      simp [lookupF]
    · have h1 : ¬ k1 = k := by
        intro he
        subst he
        have := isSome_lookupF_of_memF h
        rw [hwf.1.1] at this
        simp [Option.isSome] at this
      simp [lookupF, h1]
      exact lookupF_of_memF_wfF hwf.2 h

theorem wf_of_memF_wfF {k : String} {v : Value} :
    ∀ {f : Fields}, Fields.wfF f = true → MemF k v f → v.wf = true
  | .nil, _, h => absurd h id
  | .cons k1 v1 rest, hwf, h => by
    simp [Fields.wfF, Bool.and_eq_true] at hwf
    rcases h with ⟨_, hv⟩ | h
    · subst hv
      exact hwf.1.2
    · exact wf_of_memF_wfF hwf.2 h

theorem sizeF_of_memF {k : String} {v : Value} :
    ∀ {f : Fields}, MemF k v f → v.size ≤ Fields.sizeF f
  | .nil, h => absurd h id
  | .cons k1 v1 rest, h => by
    rcases h with ⟨_, hv⟩ | h
    · subst hv
      simp [Fields.sizeF]
      omega
    · have := sizeF_of_memF (f := rest) h
      simp [Fields.sizeF]
      omega

theorem memF_restF {k : String} {w : Value} {a : Fields} :
    ∀ {b : Fields}, MemF k w (restF a b) → MemF k w b
  | .nil, h => by simp [restF] at h; exact absurd h id
  | .cons k1 w1 rest, h => by
    by_cases h1 : (lookupF k1 a).isSome
    · simp [restF, h1] at h
      exact Or.inr (memF_restF h)
    · simp [restF, h1] at h
      rcases h with ⟨hk, hv⟩ | h
      · exact Or.inl ⟨hk, hv⟩
      · exact Or.inr (memF_restF h)

theorem restF_eq_nil (a : Fields) :
    ∀ (b : Fields), (∀ k w, MemF k w b → (lookupF k a).isSome = true) →
      restF a b = .nil
  | .nil, _ => rfl
  | .cons k1 w1 rest, h => by
    have hk : (lookupF k1 a).isSome = true := h k1 w1 (Or.inl ⟨rfl, rfl⟩)
    simp [restF, hk]
    exact restF_eq_nil a rest (fun k w hm => h k w (Or.inr hm))

theorem overrideF_appendF (b : Fields) :
    ∀ (x y : Fields), overrideF (appendF x y) b =
      appendF (overrideF x b) (overrideF y b)
  | .nil, y => rfl
  | .cons k v rest, y => by
    cases h : lookupF k b <;>
      simp [appendF, overrideF, h, overrideF_appendF b rest y]

theorem overrideF_entries (f : Fields) :
    ∀ (g : Fields),
      (∀ k v, MemF k v g → lookupF k f = some v ∧ deepMergeExtend v v = v) →
      overrideF g f = g
  | .nil, _ => rfl
  | .cons k v rest, h => by
    have hk := h k v (Or.inl ⟨rfl, rfl⟩)
    simp [overrideF, hk.1, hk.2]
    exact overrideF_entries f rest (fun k1 v1 hm => h k1 v1 (Or.inr hm))

theorem overrideF_overrideF (b : Fields)
    (habs : ∀ k w, lookupF k b = some w →
      ∀ v, deepMergeExtend (deepMergeExtend v w) w = deepMergeExtend v w) :
    ∀ (a : Fields), overrideF (overrideF a b) b = overrideF a b
  | .nil => rfl
  | .cons k v rest => by
    cases h : lookupF k b with
    | none => simp [overrideF, h, overrideF_overrideF b habs rest]
    | some w =>
      simp [overrideF, h, overrideF_overrideF b habs rest]
      exact habs k w h v

/-- Self-merge and absorption: merging a well-formed value over itself is
the identity, and re-merging the same right operand changes nothing. -/
theorem mergeIdemAux :
    ∀ (n : Nat) (w : Value), w.size ≤ n → w.wf = true →
      deepMergeExtend w w = w ∧
      ∀ v, deepMergeExtend (deepMergeExtend v w) w = deepMergeExtend v w
  | 0, w, hs, _ => absurd (le_trans (one_le_size w) hs) (by simp)
  | n + 1, w, hs, hwf => by
    cases w with
    | vNull => exact ⟨rfl, fun v => by cases v <;> rfl⟩
    | vBool b1 => exact ⟨rfl, fun v => by cases v <;> rfl⟩
    | vNum n1 => exact ⟨rfl, fun v => by cases v <;> rfl⟩
    | vStr s1 => exact ⟨rfl, fun v => by cases v <;> rfl⟩
    | vObj b =>
      have hwb : Fields.wfF b = true := by simpa [Value.wf] using hwf
      have hsb : Fields.sizeF b ≤ n := by
        simp [Value.size] at hs
        omega
      have hself : ∀ k v, MemF k v b → deepMergeExtend v v = v := by
        intro k v hm
        have hvs : v.size ≤ n := le_trans (sizeF_of_memF hm) hsb
        exact (mergeIdemAux n v hvs (wf_of_memF_wfF hwb hm)).1
      have habs : ∀ k w1, lookupF k b = some w1 →
          ∀ v, deepMergeExtend (deepMergeExtend v w1) w1 = deepMergeExtend v w1 := by
        intro k w1 hl v
        have hm := memF_of_lookupF hl
        have hws : w1.size ≤ n := le_trans (sizeF_of_memF hm) hsb
        exact (mergeIdemAux n w1 hws (wf_of_memF_wfF hwb hm)).2 v
      have hselfObj : deepMergeExtend (.vObj b) (.vObj b) = .vObj b := by
        show Value.vObj (appendF (overrideF b b) (restF b b)) = Value.vObj b
        have h1 : restF b b = .nil :=
          restF_eq_nil b b (fun k w hm => isSome_lookupF_of_memF hm)
        have h2 : overrideF b b = b :=
          overrideF_entries b b
            (fun k v hm => ⟨lookupF_of_memF_wfF hwb hm, hself k v hm⟩)
        rw [h1, h2, appendF_nil_right]
      refine ⟨hselfObj, ?_⟩
      intro v
      cases v with
        | vObj a =>
          show deepMergeExtend
              (Value.vObj (appendF (overrideF a b) (restF a b))) (.vObj b) =
            Value.vObj (appendF (overrideF a b) (restF a b))
          show Value.vObj (appendF
              (overrideF (appendF (overrideF a b) (restF a b)) b)
              (restF (appendF (overrideF a b) (restF a b)) b)) =
            Value.vObj (appendF (overrideF a b) (restF a b))
          have h1 : restF (appendF (overrideF a b) (restF a b)) b = .nil := by
            apply restF_eq_nil
            intro k w hm
            have hkb : (lookupF k b).isSome = true := isSome_lookupF_of_memF hm
            have := lookupF_mergeFields k a b
            unfold mergeFields at this
            rw [this]
            cases h2 : lookupF k a <;> cases h3 : lookupF k b <;>
              simp [h3] at hkb ⊢
          have h2 : overrideF (appendF (overrideF a b) (restF a b)) b =
              appendF (overrideF a b) (restF a b) := by
            rw [overrideF_appendF]
            have h3 : overrideF (overrideF a b) b = overrideF a b :=
              overrideF_overrideF b habs a
            have h4 : overrideF (restF a b) b = restF a b := by
              apply overrideF_entries
              intro k v hm
              have hmb : MemF k v b := memF_restF hm
              exact ⟨lookupF_of_memF_wfF hwb hmb, hself k v hmb⟩
            rw [h3, h4]
          rw [h1, h2, appendF_nil_right]
        | vNull => exact hselfObj
        | vBool b1 => exact hselfObj
        | vNum n1 => exact hselfObj
        | vStr s1 => exact hselfObj

/-- Absorption: merging the same well-formed fragment twice in a row gives
the same result as merging it once. -/
theorem deepMergeExtend_absorb {w : Value} (hwf : w.wf = true) (v : Value) :
    deepMergeExtend (deepMergeExtend v w) w = deepMergeExtend v w :=
  (mergeIdemAux w.size w (le_refl _) hwf).2 v

/-- Merging keeps a value truthy: an object result stays an object, a
scalar result is the truthy right operand itself. -/
theorem truthy_merge {S v : Value} (hv : v.truthy = true) :
    (deepMergeExtend S v).truthy = true := by
  cases v <;> cases S <;> simp_all [deepMergeExtend, Value.truthy]

/-- A successful `loadRead` leaves the root and the accumulated
configuration untouched and caches the returned value at `p`. -/
theorem loadRead_preserves {c : Config} {disk : Disk} {p : String}
    {v : Value} {c1 : Config} {r : Bool}
    (h : Config.loadRead c disk p = .ok (v, c1, r)) :
    c1.appRoot = c.appRoot ∧ c1.config = c.config ∧
      lookupPath p c1.fileCache = some v := by
  unfold Config.loadRead at h
  cases hd : disk p with
  | none =>
    rw [hd] at h
    simp at h
    obtain ⟨hv, hc, _⟩ := h
    subst hv
    rw [← hc]
    exact ⟨rfl, rfl, by simp [lookupPath]⟩
  | some content =>
    rw [hd] at h
    simp at h
    cases hp : Config.parseFile content (some (extname p)) with
    | ok data =>
      rw [hp] at h
      simp at h
      obtain ⟨hv, hc, _⟩ := h
      subst hv
      rw [← hc]
      exact ⟨rfl, rfl, by simp [lookupPath]⟩
    | error msg =>
      rw [hp] at h
      simp at h

/-- A successful `loadFile` leaves the root and the accumulated
configuration untouched and ends with the returned value cached at the
resolved path. -/
theorem loadFile_preserves {c : Config} {disk : Disk} {path : String}
    {v : Value} {c1 : Config} {r : Bool}
    (h : c.loadFile disk path = .ok (v, c1, r)) :
    c1.appRoot = c.appRoot ∧ c1.config = c.config ∧
      lookupPath (resolvePath c.appRoot path) c1.fileCache = some v := by
  unfold Config.loadFile at h
  cases hl : lookupPath (resolvePath c.appRoot path) c.fileCache with
  | some d =>
    rw [hl] at h
    by_cases ht : d.truthy
    · simp [ht] at h
      obtain ⟨hv, hc, _⟩ := h
      subst hv hc
      exact ⟨rfl, rfl, hl⟩
    · simp [ht] at h
      exact loadRead_preserves h
  | none =>
    rw [hl] at h
    exact loadRead_preserves h

example : deepMergeExtend (.vObj (.cons ("a") (.vNum 1) .nil)) (.vObj .nil)
    = .vObj (.cons ("a") (.vNum 1) .nil) := by rfl

/-- A file whose JSON5 parse is the falsy value `false`, used to exhibit
the truthiness hole in the file cache check. -/
def c2content : Content := { yamlResult := .error ("y"), jsonResult := .ok (.vBool false) }

/-- A one-file disk holding `c2content` at `/r/f.json`. -/
def c2disk : Disk := fun p => if p = "/r/f.json" then some c2content else none

/-- A store rooted at `/r` with an empty cache. -/
def c2store : Config := { appRoot := "/r", fileCache := [], config := some (.vObj .nil) }

/-- The store after the first load of `f.json`: the falsy parse result is
cached. -/
def c2store1 : Config :=
  { appRoot := "/r", fileCache := [("/r/f.json", .vBool false)], config := some (.vObj .nil) }

/-- C2 counterexample: a file parsing to the falsy value `false` is read
and parsed again by every subsequent `loadFile` — the `Bool` component
`true` in both results records a disk access, so a path is NOT parsed at
most once per store lifetime for every possible parsed value. -/
theorem c2_falsy_value_reread_cex :
    Config.loadFile c2store c2disk ("f.json") = .ok (.vBool false, c2store1, true) ∧
    Config.loadFile c2store1 c2disk ("f.json") =
      .ok (.vBool false, { c2store1 with
        fileCache := ("/r/f.json", Value.vBool false) :: c2store1.fileCache }, true) :=
  ⟨rfl, rfl⟩

/-- C2 amended: every successful `loadFile` caches the returned value at
the resolved path, and a cached TRUTHY value (in particular the
empty-object sentinel for a missing file) is returned by every subsequent
`loadFile` of the same path with no disk access and no state change,
whatever the disk now holds. -/
theorem c2_loadFile_cached_amended :
    (∀ (c : Config) (disk : Disk) (path : String) (v : Value) (c1 : Config) (r : Bool),
      c.loadFile disk path = .ok (v, c1, r) →
      lookupPath (resolvePath c.appRoot path) c1.fileCache = some v) ∧
    (∀ (c : Config) (disk2 : Disk) (path : String) (v : Value),
      lookupPath (resolvePath c.appRoot path) c.fileCache = some v →
      v.truthy = true →
      c.loadFile disk2 path = .ok (v, c, false)) := by
  constructor
  · intro c disk path v c1 r h
    exact (loadFile_preserves h).2.2
  · intro c disk2 path v hl ht
    simp [Config.loadFile, hl, ht]

/-- C2 witness: the amended theorem applied at a concrete store whose
cache holds a truthy value. -/
theorem c2_loadFile_cached_amended_witness :
    Config.loadFile
      { appRoot := "/r", fileCache := [("/r/g.json", .vObj .nil)], config := none }
      c2disk ("g.json") = .ok (.vObj .nil,
      { appRoot := "/r", fileCache := [("/r/g.json", .vObj .nil)], config := none }, false) :=
  c2_loadFile_cached_amended.2
    { appRoot := "/r", fileCache := [("/r/g.json", .vObj .nil)], config := none }
    c2disk ("g.json") (.vObj .nil) (by rfl) (by rfl)

/-- C3: adding a missing file does not throw: the resolved path is cached
as an empty object, the disk-access flag is reported, and the accumulated
configuration — as observed through `toJSON` — is unchanged. -/
theorem c3_missing_file_noop (c : Config) (disk : Disk) (path : String) (f : Fields)
    (hcfg : c.config = some (.vObj f))
    (hl : lookupPath (resolvePath c.appRoot path) c.fileCache = none)
    (hd : disk (resolvePath c.appRoot path) = none) :
    c.toJSON disk = .ok (.vObj f, c, false) ∧
    ∃ c1, c.addFile disk path = .ok (c1, true) ∧ c1.config = some (.vObj f) ∧
      c1.toJSON disk = .ok (.vObj f, c1, false) := by
  have hJ : ∀ (c2 : Config), c2.config = some (.vObj f) →
      c2.toJSON disk = .ok (.vObj f, c2, false) := by
    intro c2 h
    simp [Config.toJSON, h, Value.truthy]
  have hload : c.loadFile disk path = .ok (.vObj .nil,
      { c with fileCache := (resolvePath c.appRoot path, .vObj .nil) :: c.fileCache }, true) := by
    simp [Config.loadFile, hl, Config.loadRead, hd]
  refine ⟨hJ c hcfg, ⟨{ c with
    fileCache := (resolvePath c.appRoot path, .vObj .nil) :: c.fileCache,
    config := some (.vObj f) }, ?_, rfl, hJ _ rfl⟩⟩
  simp [Config.addFile, hload, Config.addConfig, Config.toJSON, hcfg,
    Value.truthy, merge_nil_right]

/-- C3 witness: adding a nonexistent file to a concrete store leaves its
snapshot `{}` unchanged. -/
theorem c3_missing_file_noop_witness :
    Config.toJSON c2store c2disk = .ok (.vObj .nil, c2store, false) ∧
    ∃ c1, Config.addFile c2store c2disk ("absent.json") = .ok (c1, true) ∧
      c1.config = some (.vObj .nil) ∧
      c1.toJSON c2disk = .ok (.vObj .nil, c1, false) :=
  c3_missing_file_noop c2store c2disk ("absent.json") .nil (by rfl) (by rfl) (by rfl)

/-- C4: an existing file whose content fails to parse makes both
`loadFile` and `addFile` throw an error carrying the resolved absolute
path and the original parser message; no state is produced, so a repeat of
the call re-runs the read and parse. -/
theorem c4_parse_error_propagates (c : Config) (disk : Disk) (path : String)
    (content : Content) (msg : String)
    (hl : lookupPath (resolvePath c.appRoot path) c.fileCache = none)
    (hd : disk (resolvePath c.appRoot path) = some content)
    (hp : Config.parseFile content (some (extname (resolvePath c.appRoot path))) = .error msg) :
    c.loadFile disk path = .error (.load (resolvePath c.appRoot path)
      ("Error loading config " ++ resolvePath c.appRoot path ++ ": " ++ msg)) ∧
    c.addFile disk path = .error (.load (resolvePath c.appRoot path)
      ("Error loading config " ++ resolvePath c.appRoot path ++ ": " ++ msg)) := by
  have h1 : c.loadFile disk path = .error (.load (resolvePath c.appRoot path)
      ("Error loading config " ++ resolvePath c.appRoot path ++ ": " ++ msg)) := by
    simp [Config.loadFile, hl, Config.loadRead, hd, hp]
  exact ⟨h1, by simp [Config.addFile, h1]⟩

/-- A malformed JSON file used as C4 witness input. -/
def c4content : Content :=
  { yamlResult := .error ("ybad"), jsonResult := .error ("bad syntax") }

/-- A one-file disk holding the malformed file at `/r/bad.json`. -/
def c4disk : Disk := fun p => if p = "/r/bad.json" then some c4content else none

/-- C4 witness: loading the malformed `/r/bad.json` throws the wrapped
error naming the resolved path and the parser message. -/
theorem c4_parse_error_propagates_witness :
    Config.loadFile c2store c4disk ("bad.json") = .error (.load ("/r/bad.json")
      ("Error loading config " ++ "/r/bad.json" ++ ": " ++ "bad syntax")) ∧
    Config.addFile c2store c4disk ("bad.json") = .error (.load ("/r/bad.json")
      ("Error loading config " ++ "/r/bad.json" ++ ": " ++ "bad syntax")) := by
  have h := c4_parse_error_propagates c2store c4disk ("bad.json") c4content
    ("bad syntax") (by rfl) (by rfl) (by rfl)
  simpa using h

/-- C8: once the empty-object sentinel is cached for a path, every later
`loadFile` of that path returns the sentinel without touching the disk and
every later `addFile` of it returns the store completely unchanged —
whatever the disk now holds, so a file created later is never picked up. -/
theorem c8_missing_sentinel_stale (c : Config) (path : String) (f : Fields)
    (hcfg : c.config = some (.vObj f))
    (hl : lookupPath (resolvePath c.appRoot path) c.fileCache = some (.vObj .nil)) :
    ∀ disk2 : Disk, c.loadFile disk2 path = .ok (.vObj .nil, c, false) ∧
      c.addFile disk2 path = .ok (c, false) := by
  intro disk2
  have h1 : c.loadFile disk2 path = .ok (.vObj .nil, c, false) := by
    simp [Config.loadFile, hl, Value.truthy]
  refine ⟨h1, ?_⟩
  obtain ⟨ar, fc, cfg⟩ := c
  simp only at hcfg
  subst hcfg
  simp [Config.addFile, h1, Config.addConfig, Config.toJSON,
    Value.truthy, merge_nil_right]

/-- A disk on which `/r/late.json` now exists with real content, used to
show the sentinel is still served. -/
def c8disk2 : Disk := fun p =>
  if p = "/r/late.json" then
    some { yamlResult := .error ("y"),
           jsonResult := .ok (.vObj (.cons ("x") (.vNum 7) .nil)) }
  else none

/-- A store that already cached the missing-file sentinel for
`/r/late.json`. -/
def c8store : Config :=
  { appRoot := "/r", fileCache := [("/r/late.json", .vObj .nil)],
    config := some (.vObj .nil) }

/-- C8 witness: even though `/r/late.json` now exists on disk, the store
keeps serving the cached empty object and `addFile` changes nothing. -/
theorem c8_missing_sentinel_stale_witness :
    Config.loadFile c8store c8disk2 ("late.json") = .ok (.vObj .nil, c8store, false) ∧
    Config.addFile c8store c8disk2 ("late.json") = .ok (c8store, false) :=
  c8_missing_sentinel_stale c8store ("late.json") .nil (by rfl) (by rfl) c8disk2

/-- A string whose YAML parse (`{a: 1}`) and JSON5 parse (`{b: 2}`)
differ, exhibiting which parser `addString` actually runs. -/
def c5content : Content :=
  { yamlResult := .ok (.vObj (.cons ("a") (.vNum 1) .nil)),
    jsonResult := .ok (.vObj (.cons ("b") (.vNum 2) .nil)) }

/-- A store with a truthy accumulated configuration, so merging is
observed directly. -/
def c5store : Config := { appRoot := "/app", fileCache := [], config := some (.vObj .nil) }

/-- An empty disk. -/
def c5disk : Disk := fun _ => none

/-- C5 counterexample: `addString` takes no format hint — the source calls
`parseFile(str)` with no extension — so it merges the JSON5 parse
`{b: 2}`, not the YAML parse `{a: 1}`: a YAML hint cannot select the YAML
parser. -/
theorem c5_yaml_hint_not_used_cex :
    Config.addString c5store c5disk c5content =
      .ok ({ c5store with config := some (.vObj (.cons ("b") (.vNum 2) .nil)) }, false) ∧
    Value.vObj (.cons ("b") (.vNum 2) .nil) ≠ Value.vObj (.cons ("a") (.vNum 1) .nil) :=
  ⟨rfl, by simp⟩

/-- C5 amended: `addString` has no format-hint parameter; it always
dispatches to the relaxed-JSON (JSON5) parser — `parseFile` with an absent
extension takes the default branch — and merges the parsed fragment. -/
theorem c5_addString_always_json (c : Config) (disk : Disk) (s : Content) :
    Config.parseFile s none = s.jsonResult ∧
    c.addString disk s = (match s.jsonResult with
      | .ok v => c.addConfig disk v
      | .error m => .error (.parse m)) := by
  have h1 : Config.parseFile s none = s.jsonResult := by simp [Config.parseFile]
  refine ⟨h1, ?_⟩
  unfold Config.addString
  rw [h1]
  cases s.jsonResult <;> simp

/-- C6: a freshly constructed store answers `toJSON` with exactly
`{APP_NAME, APP_VERSION, APP_ROOT}` — name and version read from the
package-metadata file through the caching load path — and a store whose
accumulated configuration is set answers with that value instead. -/
theorem c6_default_snapshot (root : String) (disk : Disk) (content : Content) (pkg : Value)
    (hext : extname (resolvePath root ("package.json")) = ".json")
    (hd : disk (resolvePath root ("package.json")) = some content)
    (hp : content.jsonResult = .ok pkg) :
    (∃ c1, (Config.new root).toJSON disk =
      .ok (.vObj (.cons ("APP_NAME") (getField pkg ("name"))
        (.cons ("APP_VERSION") (getField pkg ("version"))
        (.cons ("APP_ROOT") (.vStr root) .nil))), c1, true)) ∧
    ∀ (c : Config) (f : Fields), c.config = some (.vObj f) →
      c.toJSON disk = .ok (.vObj f, c, false) := by
  constructor
  · have hpf : Config.parseFile content (some (extname (resolvePath root ("package.json")))) =
        .ok pkg := by
      rw [hext]
      simp [Config.parseFile, hp]
    set cP : Config :=
      { appRoot := root, fileCache := [(resolvePath root ("package.json"), pkg)],
        config := none } with hcP
    set cP2 : Config :=
      { appRoot := root, fileCache := (resolvePath root ("package.json"), pkg) ::
          [(resolvePath root ("package.json"), pkg)], config := none } with hcP2
    have hload1 : Config.loadFile { appRoot := root, fileCache := [], config := none }
        disk ("package.json") = .ok (pkg, cP, true) := by
      simp [Config.loadFile, lookupPath, Config.loadRead, hd, hpf, hcP]
    by_cases ht : pkg.truthy
    · refine ⟨cP, ?_⟩
      have hload2 : Config.loadFile cP disk ("package.json") = .ok (pkg, cP, false) := by
        simp [Config.loadFile, lookupPath, ht, hcP]
      simp [Config.toJSON, Config.new, Config.getDefaults, Config.getPackage, hload1, hload2]
    · refine ⟨cP2, ?_⟩
      have hload2 : Config.loadFile cP disk ("package.json") = .ok (pkg, cP2, true) := by
        simp [Config.loadFile, lookupPath, ht, Config.loadRead, hd, hpf, hcP, hcP2]
      simp [Config.toJSON, Config.new, Config.getDefaults, Config.getPackage, hload1, hload2]
  · intro c f h
    simp [Config.toJSON, h, Value.truthy]

/-- The package metadata value used by concrete witnesses. -/
def c6pkg : Value :=
  .vObj (.cons ("name") (.vStr "test-app") (.cons ("version") (.vStr "1.2.3") .nil))

/-- A disk holding only `/app/package.json`. -/
def c6disk : Disk := fun p =>
  if p = "/app/package.json" then
    some { yamlResult := .error ("y"), jsonResult := .ok c6pkg }
  else none

/-- C6 witness: the fresh store rooted at `/app` snapshots to the three
derived defaults of the concrete package file. -/
theorem c6_default_snapshot_witness :
    (∃ c1, (Config.new ("/app")).toJSON c6disk =
      .ok (.vObj (.cons ("APP_NAME") (getField c6pkg ("name"))
        (.cons ("APP_VERSION") (getField c6pkg ("version"))
        (.cons ("APP_ROOT") (.vStr "/app") .nil))), c1, true)) ∧
    ∀ (c : Config) (f : Fields), c.config = some (.vObj f) →
      c.toJSON c6disk = .ok (.vObj f, c, false) :=
  c6_default_snapshot ("/app") c6disk
    { yamlResult := .error ("y"), jsonResult := .ok c6pkg } c6pkg
    (by rfl) (by rfl) (by rfl)

/-- A disk holding `/r/f.json`, whose JSON5 parse is the falsy value
`false`. -/
def c7disk : Disk := fun p =>
  if p = "/r/f.json" then
    some { yamlResult := .error ("ny"), jsonResult := .ok (.vBool false) }
  else none

/-- The C7 starting store. -/
def c7store : Config := { appRoot := "/r", fileCache := [], config := some (.vObj .nil) }

/-- The store after the first `addFile` of `f.json`. -/
def c7store1 : Config :=
  { appRoot := "/r", fileCache := [("/r/f.json", .vBool false)],
    config := some (.vBool false) }

/-- The store after the second `addFile` of `f.json`: the falsy cache
entry forced a second disk read (and a defaults lookup after the
accumulated value went falsy). -/
def c7store2 : Config :=
  { appRoot := "/r",
    fileCache := [("/r/package.json", .vObj .nil), ("/r/f.json", .vBool false),
      ("/r/f.json", .vBool false)],
    config := some (.vBool false) }

/-- C7 counterexample: with a file whose parse result is falsy, the second
`addFile` of the same path hits the truthiness hole in the cache check and
accesses the disk again (`true` flag in the second result), so the second
call is not free of disk reads for every disk state. -/
theorem c7_second_call_rereads_cex :
    Config.addFile c7store c7disk ("f.json") = .ok (c7store1, true) ∧
    Config.addFile c7store1 c7disk ("f.json") = .ok (c7store2, true) :=
  ⟨rfl, rfl⟩

/-- C7 amended: when the loaded value is truthy and well-formed (unique
object keys, as for any real parse result) and the accumulated
configuration is a truthy value, `addFile` twice equals `addFile` once —
the second call returns the identical store and performs no disk access at
all. -/
theorem c7_addFile_idempotent_amended (c : Config) (disk : Disk) (path : String)
    (S v : Value) (cA : Config) (r : Bool)
    (hcfg : c.config = some S) (hS : S.truthy = true)
    (hload : c.loadFile disk path = .ok (v, cA, r))
    (hv : v.truthy = true) (hwf : v.wf = true) :
    c.addFile disk path = .ok ({ cA with config := some (deepMergeExtend S v) }, r) ∧
    Config.addFile { cA with config := some (deepMergeExtend S v) } disk path =
      .ok ({ cA with config := some (deepMergeExtend S v) }, false) := by
  obtain ⟨hroot, hcfgA, hcache⟩ := loadFile_preserves hload
  have h1 : c.addFile disk path = .ok ({ cA with config := some (deepMergeExtend S v) }, r) := by
    simp [Config.addFile, hload, Config.addConfig, Config.toJSON, hcfgA, hcfg, hS]
  refine ⟨h1, ?_⟩
  have hl2 : Config.loadFile { cA with config := some (deepMergeExtend S v) } disk path =
      .ok (v, { cA with config := some (deepMergeExtend S v) }, false) := by
    show (match lookupPath (resolvePath cA.appRoot path)
        cA.fileCache with
      | some d =>
        if d.truthy then .ok (d, { cA with config := some (deepMergeExtend S v) }, false)
        else Config.loadRead { cA with config := some (deepMergeExtend S v) } disk
          (resolvePath cA.appRoot path)
      | none => Config.loadRead { cA with config := some (deepMergeExtend S v) } disk
          (resolvePath cA.appRoot path) :
        Except JsError (Value × Config × Bool)) =
      .ok (v, { cA with config := some (deepMergeExtend S v) }, false)
    rw [hroot, hcache]
    simp [hv]
  have hm : (deepMergeExtend S v).truthy = true := truthy_merge hv
  simp [Config.addFile, hl2, Config.addConfig, Config.toJSON, hm,
    deepMergeExtend_absorb hwf]

/-- The truthy parsed value for the C7 witness. -/
def c7wval : Value := .vObj (.cons ("x") (.vNum 1) .nil)

/-- A disk holding `/w/one.json`, for the C7 witness. -/
def c7wdisk : Disk := fun p =>
  if p = "/w/one.json" then
    some { yamlResult := .error ("y"), jsonResult := .ok c7wval }
  else none

/-- The C7 witness store. -/
def c7wstore : Config := { appRoot := "/w", fileCache := [], config := some (.vObj .nil) }

/-- The C7 witness store after the load of `one.json`. -/
def c7wstoreA : Config :=
  { appRoot := "/w", fileCache := [("/w/one.json", c7wval)], config := some (.vObj .nil) }

/-- C7 witness: the amended idempotence applied to a concrete truthy
file. -/
theorem c7_addFile_idempotent_amended_witness :
    Config.addFile c7wstore c7wdisk ("one.json") =
      .ok ({ c7wstoreA with config := some (deepMergeExtend (.vObj .nil) c7wval) }, true) ∧
    Config.addFile { c7wstoreA with config := some (deepMergeExtend (.vObj .nil) c7wval) }
      c7wdisk ("one.json") =
      .ok ({ c7wstoreA with config := some (deepMergeExtend (.vObj .nil) c7wval) }, false) :=
  c7_addFile_idempotent_amended c7wstore c7wdisk ("one.json") (.vObj .nil) c7wval
    c7wstoreA true (by rfl) (by rfl) (by rfl) (by rfl) (by rfl)

/-- C9: a `.yaml` file and a `.json` file whose contents parse to the same
value produce, from the same store state, stores with identical
accumulated configurations. -/
theorem c9_format_equivalence (c : Config) (disk : Disk) (py pj : String) (S v : Value)
    (Cy Cj : Content)
    (hcfg : c.config = some S) (hS : S.truthy = true)
    (hly : lookupPath (resolvePath c.appRoot py) c.fileCache = none)
    (hlj : lookupPath (resolvePath c.appRoot pj) c.fileCache = none)
    (hdy : disk (resolvePath c.appRoot py) = some Cy)
    (hdj : disk (resolvePath c.appRoot pj) = some Cj)
    (hey : extname (resolvePath c.appRoot py) = ".yaml")
    (hej : extname (resolvePath c.appRoot pj) = ".json")
    (hvy : Cy.yamlResult = .ok v)
    (hvj : Cj.jsonResult = .ok v) :
    ∃ c1 c2, c.addFile disk py = .ok (c1, true) ∧ c.addFile disk pj = .ok (c2, true) ∧
      c1.config = c2.config ∧ c1.config = some (deepMergeExtend S v) := by
  have hpy : Config.parseFile Cy (some (extname (resolvePath c.appRoot py))) = .ok v := by
    rw [hey]
    simp [Config.parseFile, hvy]
  have hpj : Config.parseFile Cj (some (extname (resolvePath c.appRoot pj))) = .ok v := by
    rw [hej]
    simp [Config.parseFile, hvj]
  have hloady : c.loadFile disk py = .ok (v,
      { c with fileCache := (resolvePath c.appRoot py, v) :: c.fileCache }, true) := by
    simp [Config.loadFile, hly, Config.loadRead, hdy, hpy]
  have hloadj : c.loadFile disk pj = .ok (v,
      { c with fileCache := (resolvePath c.appRoot pj, v) :: c.fileCache }, true) := by
    simp [Config.loadFile, hlj, Config.loadRead, hdj, hpj]
  set cy : Config :=
    { appRoot := c.appRoot, fileCache := (resolvePath c.appRoot py, v) :: c.fileCache,
      config := some (deepMergeExtend S v) } with hcy
  set cj : Config :=
    { appRoot := c.appRoot, fileCache := (resolvePath c.appRoot pj, v) :: c.fileCache,
      config := some (deepMergeExtend S v) } with hcj
  refine ⟨cy, cj, ?_, ?_, by rw [hcy, hcj], by rw [hcy]⟩
  · simp [Config.addFile, hloady, Config.addConfig, Config.toJSON, hcfg, hS, hcy]
  · simp [Config.addFile, hloadj, Config.addConfig, Config.toJSON, hcfg, hS, hcj]

/-- The package metadata for the C1 concrete scenario. -/
def c1pkg : Value :=
  .vObj (.cons ("name") (.vStr "test-app") (.cons ("version") (.vStr "1.2.3") .nil))

/-- The C1 disk: only `/app/package.json` exists. -/
def c1disk : Disk := fun p =>
  if p = "/app/package.json" then
    some { yamlResult := .error ("y"), jsonResult := .ok c1pkg }
  else none

/-- The first C1 fragment, `{db: {host: 'localhost', port: 5432}}`. -/
def c1dbA : Value :=
  .vObj (.cons ("db") (.vObj (.cons ("host") (.vStr "localhost")
    (.cons ("port") (.vNum 5432) .nil))) .nil)

/-- The second C1 fragment, `{db: {port: 5433}}`. -/
def c1dbB : Value := .vObj (.cons ("db") (.vObj (.cons ("port") (.vNum 5433) .nil)) .nil)

/-- C1: successive `addConfig` calls deep-merge — per key, a key in both
fragments carries the second fragment's (recursively merged) value and a
key in one fragment carries that fragment's value; two `addConfig` calls
accumulate `merge (merge base A) B`; and in the concrete scenario the
snapshot's `db` equals `{host: 'localhost', port: 5433}`. -/
theorem c1_addConfig_override_union :
    (∀ (a b : Fields), deepMergeExtend (.vObj a) (.vObj b) = .vObj (mergeFields a b) ∧
      ∀ k, lookupF k (mergeFields a b) =
        match lookupF k a, lookupF k b with
        | some v, some w => some (deepMergeExtend v w)
        | some v, none => some v
        | none, o => o) ∧
    (∀ (c : Config) (disk : Disk) (S : Value) (a b : Fields),
      c.config = some S → S.truthy = true →
      ∃ c1 c2, c.addConfig disk (.vObj a) = .ok (c1, false) ∧
        c1.config = some (deepMergeExtend S (.vObj a)) ∧
        c1.addConfig disk (.vObj b) = .ok (c2, false) ∧
        c2.config = some (deepMergeExtend (deepMergeExtend S (.vObj a)) (.vObj b))) ∧
    (∃ cx cy g, (Config.new ("/app")).addConfig c1disk c1dbA = .ok (cx, true) ∧
      Config.addConfig cx c1disk c1dbB = .ok (cy, false) ∧
      cy.toJSON c1disk = .ok (.vObj g, cy, false) ∧
      lookupF ("db") g = some (.vObj (.cons ("host") (.vStr "localhost")
        (.cons ("port") (.vNum 5433) .nil)))) := by
  refine ⟨fun a b => ⟨rfl, fun k => lookupF_mergeFields k a b⟩, ?_, ?_⟩
  · intro c disk S a b hc hS
    set c1 : Config :=
      { appRoot := c.appRoot, fileCache := c.fileCache,
        config := some (deepMergeExtend S (.vObj a)) } with hc1
    set c2 : Config :=
      { appRoot := c.appRoot, fileCache := c.fileCache,
        config := some (deepMergeExtend (deepMergeExtend S (.vObj a)) (.vObj b)) } with hc2
    have ht1 : (deepMergeExtend S (.vObj a)).truthy = true := truthy_merge (by rfl)
    refine ⟨c1, c2, ?_, by rw [hc1], ?_, by rw [hc2]⟩
    · simp [Config.addConfig, Config.toJSON, hc, hS, hc1]
    · simp [Config.addConfig, Config.toJSON, ht1, hc1, hc2]
  · exact ⟨_, _, _, rfl, rfl, rfl, rfl⟩

/-- The C1 witness store: already-accumulated empty object. -/
def c1wstore : Config := { appRoot := "/x", fileCache := [], config := some (.vObj .nil) }

/-- The C1 witness disk (empty). -/
def c1wdisk : Disk := fun _ => none

/-- C1 witness: the override/union law applied at a concrete store and a
concrete pair of fragments. -/
theorem c1_addConfig_override_union_witness :
    ∃ c1 c2, Config.addConfig c1wstore c1wdisk (.vObj (.cons ("p") (.vNum 1) .nil)) =
        .ok (c1, false) ∧
      c1.config = some (deepMergeExtend (.vObj .nil) (.vObj (.cons ("p") (.vNum 1) .nil))) ∧
      c1.addConfig c1wdisk (.vObj (.cons ("p") (.vNum 2) .nil)) = .ok (c2, false) ∧
      c2.config = some (deepMergeExtend
        (deepMergeExtend (.vObj .nil) (.vObj (.cons ("p") (.vNum 1) .nil)))
        (.vObj (.cons ("p") (.vNum 2) .nil))) :=
  c1_addConfig_override_union.2.1 c1wstore c1wdisk (.vObj .nil)
    (.cons ("p") (.vNum 1) .nil) (.cons ("p") (.vNum 2) .nil) (by rfl) (by rfl)

/-- The common parsed value for the C9 witness. -/
def c9val : Value := .vObj (.cons ("x") (.vNum 1) .nil)

/-- The C9 witness disk: equivalent YAML and JSON files. -/
def c9disk : Disk := fun p =>
  if p = "/w/a.yaml" then some { yamlResult := .ok c9val, jsonResult := .error ("nj") }
  else if p = "/w/a.json" then some { yamlResult := .error ("ny"), jsonResult := .ok c9val }
  else none

/-- The C9 witness store. -/
def c9store : Config := { appRoot := "/w", fileCache := [], config := some (.vObj .nil) }

/-- C9 witness: the format-equivalence theorem at the concrete pair of
files. -/
theorem c9_format_equivalence_witness :
    ∃ c1 c2, Config.addFile c9store c9disk ("a.yaml") = .ok (c1, true) ∧
      Config.addFile c9store c9disk ("a.json") = .ok (c2, true) ∧
      c1.config = c2.config ∧ c1.config = some (deepMergeExtend (.vObj .nil) c9val) :=
  c9_format_equivalence c9store c9disk ("a.yaml") ("a.json") (.vObj .nil) c9val
    { yamlResult := .ok c9val, jsonResult := .error ("nj") }
    { yamlResult := .error ("ny"), jsonResult := .ok c9val }
    (by rfl) (by rfl) (by rfl) (by rfl) (by rfl) (by rfl) (by rfl) (by rfl)
    (by rfl) (by rfl)

example : deepMergeExtend
    (.vObj (.cons ("a") (.vNum 1) (.cons ("b") (.vNum 2) .nil)))
    (.vObj (.cons ("b") (.vNum 3) (.cons ("c") (.vNum 4) .nil)))
    = .vObj (.cons ("a") (.vNum 1) (.cons ("b") (.vNum 3)
        (.cons ("c") (.vNum 4) .nil))) := by rfl

/-- A value is an object avoiding all keys in `ks`. -/
def Value.avoids (ks : List String) : Value → Bool
  | .vObj f => ks.all (fun k => (lookupF k f).isNone)
  | _ => false

/-- Every value in the file cache is an object avoiding the keys `ks`. -/
def CacheOk (ks : List String) (c : Config) : Prop :=
  ∀ p v, lookupPath p c.fileCache = some v → v.avoids ks = true

/-- The fragment contributed by one mutating call avoids the keys `ks`:
directly for `addConfig`, through the JSON5 parse for `addString`, and
through the dispatched parse of the resolved file for `addFile`. -/
def OpOk (disk : Disk) (root : String) (ks : List String) : Op → Prop
  | .opConfig v => v.avoids ks = true
  | .opString s => ∀ v, s.jsonResult = .ok v → v.avoids ks = true
  | .opFile p => ∀ C, disk (resolvePath root p) = some C →
      ∀ v, Config.parseFile C (some (extname (resolvePath root p))) = .ok v →
        v.avoids ks = true

/-- Run-time invariant of the store during a C10 run: fixed root, the
package metadata cached at its resolved path, and a cache of
`ks`-avoiding objects. -/
def StoreInv (ks : List String) (root pkgP : String) (pkgV : Value) (c : Config) : Prop :=
  c.appRoot = root ∧ lookupPath pkgP c.fileCache = some pkgV ∧ CacheOk ks c

/-- The field list `getDefaults` derives from the package metadata. -/
def defaultsFields (pkg : Value) (root : String) : Fields :=
  .cons ("APP_NAME") (getField pkg ("name"))
    (.cons ("APP_VERSION") (getField pkg ("version"))
    (.cons ("APP_ROOT") (.vStr root) .nil))

theorem avoids_truthy {ks : List String} {v : Value} (h : v.avoids ks = true) :
    v.truthy = true := by
  cases v <;> simp_all [Value.avoids, Value.truthy]

theorem avoids_obj {ks : List String} {v : Value} (h : v.avoids ks = true) :
    ∃ f, v = .vObj f := by
  cases v <;> simp_all [Value.avoids]

theorem avoids_lookupF {ks : List String} {f : Fields} {k : String}
    (h : (Value.vObj f).avoids ks = true) (hk : k ∈ ks) : lookupF k f = none := by
  simp [Value.avoids, List.all_eq_true] at h
  have := h k hk
  simpa using this

theorem avoids_nil_obj (ks : List String) : (Value.vObj .nil).avoids ks = true := by
  simp [Value.avoids, lookupF, List.all_eq_true]

theorem avoids_merge {ks : List String} {g fv : Fields} {k : String}
    (hav : (Value.vObj fv).avoids ks = true) (hk : k ∈ ks) :
    lookupF k (mergeFields g fv) = lookupF k g := by
  have h : lookupF k fv = none := avoids_lookupF hav hk
  rw [lookupF_mergeFields, h]
  cases lookupF k g <;> simp

theorem c10_loadRead_step {ks : List String} {pkgP : String} {pkgV : Value}
    {disk : Disk} {c : Config} {P : String} {v : Value} {c1 : Config} {r : Bool}
    (hpkg : lookupPath pkgP c.fileCache = some pkgV)
    (hcache : CacheOk ks c)
    (hop : ∀ C, disk P = some C →
      ∀ w, Config.parseFile C (some (extname P)) = .ok w → w.avoids ks = true)
    (hl : lookupPath P c.fileCache = none)
    (h : Config.loadRead c disk P = .ok (v, c1, r)) :
    v.avoids ks = true ∧ c1.appRoot = c.appRoot ∧
      lookupPath pkgP c1.fileCache = some pkgV ∧ CacheOk ks c1 ∧ c1.config = c.config := by
  have hne : P ≠ pkgP := by
    intro he
    rw [he, hpkg] at hl
    exact Option.noConfusion hl
  unfold Config.loadRead at h
  cases hd : disk P with
  | none =>
    rw [hd] at h
    simp at h
    obtain ⟨hv, hc, _⟩ := h
    subst hv
    rw [← hc]
    refine ⟨avoids_nil_obj ks, rfl, ?_, ?_, rfl⟩
    · simp [lookupPath, hne, hpkg]
    · intro p w hw
      simp only [lookupPath] at hw
      by_cases he : P = p
      · rw [if_pos he] at hw
        cases hw
        exact avoids_nil_obj ks
      · rw [if_neg he] at hw
        exact hcache _ _ hw
  | some C =>
    rw [hd] at h
    simp at h
    cases hp : Config.parseFile C (some (extname P)) with
    | ok data =>
      rw [hp] at h
      simp at h
      obtain ⟨hv, hc, _⟩ := h
      subst hv
      rw [← hc]
      have hav : data.avoids ks = true := hop C hd data hp
      refine ⟨hav, rfl, ?_, ?_, rfl⟩
      · simp [lookupPath, hne, hpkg]
      · intro p w hw
        simp only [lookupPath] at hw
        by_cases he : P = p
        · rw [if_pos he] at hw
          cases hw
          exact hav
        · rw [if_neg he] at hw
          exact hcache _ _ hw
    | error msg =>
      rw [hp] at h
      simp at h

theorem c10_loadFile_step {ks : List String} {root pkgP : String} {pkgV : Value}
    {disk : Disk} {c : Config} {path : String} {v : Value} {c1 : Config} {r : Bool}
    (hinv : StoreInv ks root pkgP pkgV c)
    (hop : ∀ C, disk (resolvePath root path) = some C →
      ∀ w, Config.parseFile C (some (extname (resolvePath root path))) = .ok w →
        w.avoids ks = true)
    (h : c.loadFile disk path = .ok (v, c1, r)) :
    v.avoids ks = true ∧ StoreInv ks root pkgP pkgV c1 ∧ c1.config = c.config := by
  obtain ⟨hroot, hpkg, hcache⟩ := hinv
  unfold Config.loadFile at h
  rw [hroot] at h
  cases hl : lookupPath (resolvePath root path) c.fileCache with
  | some d =>
    rw [hl] at h
    have hav : d.avoids ks = true := hcache _ _ hl
    simp [avoids_truthy hav] at h
    obtain ⟨hv, hc, _⟩ := h
    subst hv
    rw [← hc]
    exact ⟨hav, ⟨hroot, hpkg, hcache⟩, rfl⟩
  | none =>
    rw [hl] at h
    obtain ⟨hav, ha, hp, hco, hcf⟩ := c10_loadRead_step hpkg hcache hop hl h
    exact ⟨hav, ⟨ha.trans hroot, hp, hco⟩, hcf⟩

theorem c10_toJSON_defaults {ks : List String} {root : String} {pkgV : Value}
    {disk : Disk} {c : Config}
    (hinv : StoreInv ks root (resolvePath root ("package.json")) pkgV c)
    (hcfg : c.config = none) :
    c.toJSON disk = .ok (.vObj (defaultsFields pkgV root), c, false) := by
  obtain ⟨hroot, hpkg, hcache⟩ := hinv
  have htr : pkgV.truthy = true := avoids_truthy (hcache _ _ hpkg)
  have hgp : c.getPackage disk = .ok (pkgV, c, false) := by
    unfold Config.getPackage Config.loadFile
    rw [hroot, hpkg]
    simp [htr]
  simp [Config.toJSON, hcfg, Config.getDefaults, hgp, defaultsFields, hroot]

theorem c10_toJSON_config {disk : Disk} {c : Config} {g : Fields}
    (h : c.config = some (.vObj g)) :
    c.toJSON disk = .ok (.vObj g, c, false) := by
  simp [Config.toJSON, h, Value.truthy]

theorem c10_addConfig_step {ks : List String} {root : String} {pkgV : Value}
    {disk : Disk} {c : Config} {frag : Value} {c1 : Config} {r : Bool}
    (hinv : StoreInv ks root (resolvePath root ("package.json")) pkgV c)
    (hfrag : frag.avoids ks = true)
    (hpre : c.config = none ∨ ∃ g, c.config = some (.vObj g) ∧
      ∀ k ∈ ks, lookupF k g = lookupF k (defaultsFields pkgV root))
    (h : c.addConfig disk frag = .ok (c1, r)) :
    StoreInv ks root (resolvePath root ("package.json")) pkgV c1 ∧
      ∃ g1, c1.config = some (.vObj g1) ∧
        ∀ k ∈ ks, lookupF k g1 = lookupF k (defaultsFields pkgV root) := by
  obtain ⟨fv, hfv⟩ := avoids_obj hfrag
  subst hfv
  cases hpre with
  | inl hnone =>
    rw [Config.addConfig, c10_toJSON_defaults hinv hnone] at h
    simp at h
    obtain ⟨hc, _⟩ := h
    rw [← hc]
    obtain ⟨hroot, hpkg, hcache⟩ := hinv
    refine ⟨⟨hroot, hpkg, hcache⟩, mergeFields (defaultsFields pkgV root) fv, rfl, ?_⟩
    intro k hk
    exact avoids_merge hfrag hk
  | inr hsome =>
    obtain ⟨g, hg, hlk⟩ := hsome
    rw [Config.addConfig, c10_toJSON_config hg] at h
    simp at h
    obtain ⟨hc, _⟩ := h
    rw [← hc]
    obtain ⟨hroot, hpkg, hcache⟩ := hinv
    refine ⟨⟨hroot, hpkg, hcache⟩, mergeFields g fv, rfl, ?_⟩
    intro k hk
    rw [avoids_merge hfrag hk]
    exact hlk k hk

theorem c10_runOp_step {ks : List String} {root : String} {pkgV : Value}
    {disk : Disk} {c : Config} {op : Op} {c1 : Config} {r : Bool}
    (hinv : StoreInv ks root (resolvePath root ("package.json")) pkgV c)
    (hop : OpOk disk root ks op)
    (hpre : c.config = none ∨ ∃ g, c.config = some (.vObj g) ∧
      ∀ k ∈ ks, lookupF k g = lookupF k (defaultsFields pkgV root))
    (h : c.runOp disk op = .ok (c1, r)) :
    StoreInv ks root (resolvePath root ("package.json")) pkgV c1 ∧
      ∃ g1, c1.config = some (.vObj g1) ∧
        ∀ k ∈ ks, lookupF k g1 = lookupF k (defaultsFields pkgV root) := by
  cases op with
  | opConfig v =>
    exact c10_addConfig_step hinv hop hpre h
  | opFile p =>
    simp only [Config.runOp] at h
    unfold Config.addFile at h
    cases hlf : c.loadFile disk p with
    | error e =>
      rw [hlf] at h
      simp at h
    | ok t =>
      obtain ⟨v, cA, r1⟩ := t
      rw [hlf] at h
      simp only [] at h
      obtain ⟨hav, hinvA, hcfgA⟩ := c10_loadFile_step hinv hop hlf
      cases hac : cA.addConfig disk v with
      | error e =>
        rw [hac] at h
        simp at h
      | ok t2 =>
        obtain ⟨c2, r2⟩ := t2
        rw [hac] at h
        simp at h
        obtain ⟨hc, _⟩ := h
        subst hc
        have hpreA : cA.config = none ∨ ∃ g, cA.config = some (.vObj g) ∧
            ∀ k ∈ ks, lookupF k g = lookupF k (defaultsFields pkgV root) := by
          cases hpre with
          | inl h0 => exact Or.inl (hcfgA.trans h0)
          | inr h0 =>
            obtain ⟨g, hg, hk⟩ := h0
            exact Or.inr ⟨g, hcfgA.trans hg, hk⟩
        exact c10_addConfig_step hinvA hav hpreA hac
  | opString s =>
    simp only [Config.runOp] at h
    unfold Config.addString at h
    have hps : Config.parseFile s none = s.jsonResult := by simp [Config.parseFile]
    rw [hps] at h
    cases hj : s.jsonResult with
    | error m =>
      rw [hj] at h
      simp at h
    | ok v =>
      rw [hj] at h
      exact c10_addConfig_step hinv (hop v hj) hpre h

theorem c10_runOps_preserve {ks : List String} {root : String} {pkgV : Value}
    {disk : Disk} :
    ∀ (ops : List Op) (c cf : Config),
      StoreInv ks root (resolvePath root ("package.json")) pkgV c →
      (∃ g, c.config = some (.vObj g) ∧
        ∀ k ∈ ks, lookupF k g = lookupF k (defaultsFields pkgV root)) →
      (∀ op ∈ ops, OpOk disk root ks op) →
      c.runOps disk ops = .ok cf →
      StoreInv ks root (resolvePath root ("package.json")) pkgV cf ∧
        ∃ g, cf.config = some (.vObj g) ∧
          ∀ k ∈ ks, lookupF k g = lookupF k (defaultsFields pkgV root)
  | [], c, cf, hinv, hg, _, hrun => by
    simp [Config.runOps] at hrun
    rw [← hrun]
    exact ⟨hinv, hg⟩
  | op :: rest, c, cf, hinv, hg, hops, hrun => by
    rw [Config.runOps] at hrun
    cases h0 : c.runOp disk op with
    | error e =>
      rw [h0] at hrun
      simp at hrun
    | ok t =>
      obtain ⟨c1, r⟩ := t
      rw [h0] at hrun
      simp at hrun
      have hstep := c10_runOp_step hinv (hops op (by simp)) (Or.inr hg) h0
      exact c10_runOps_preserve rest c1 cf hstep.1 hstep.2
        (fun o ho => hops o (by simp [ho])) hrun

/-- C10: starting from a store with no accumulated configuration whose
cache already holds the package metadata, any nonempty sequence of
`addConfig`/`addFile`/`addString` calls whose fragments are objects
containing none of the keys `APP_NAME`, `APP_VERSION`, `APP_ROOT` ends in
a store whose snapshot is an object carrying those three keys with exactly
the `getDefaults` values — the first mutating call seeds the accumulated
state from the defaults and later merges never disturb those keys. -/
theorem c10_default_keys_seeded (disk : Disk) (root : String) (pkgV : Value)
    (c : Config) (ops : List Op) (cf : Config)
    (hroot : c.appRoot = root)
    (hcfg : c.config = none)
    (hpkg : lookupPath (resolvePath root ("package.json")) c.fileCache = some pkgV)
    (hcache : CacheOk ["APP_NAME", "APP_VERSION", "APP_ROOT"] c)
    (hops : ∀ op ∈ ops, OpOk disk root ["APP_NAME", "APP_VERSION", "APP_ROOT"] op)
    (hne : ops ≠ [])
    (hrun : c.runOps disk ops = .ok cf) :
    ∃ g, cf.config = some (.vObj g) ∧ cf.toJSON disk = .ok (.vObj g, cf, false) ∧
      lookupF ("APP_NAME") g = some (getField pkgV ("name")) ∧
      lookupF ("APP_VERSION") g = some (getField pkgV ("version")) ∧
      lookupF ("APP_ROOT") g = some (.vStr root) := by
  cases ops with
  | nil => exact absurd rfl hne
  | cons op rest =>
    rw [Config.runOps] at hrun
    cases h0 : c.runOp disk op with
    | error e =>
      rw [h0] at hrun
      simp at hrun
    | ok t =>
      obtain ⟨c1, r⟩ := t
      rw [h0] at hrun
      simp at hrun
      have hstep := c10_runOp_step ⟨hroot, hpkg, hcache⟩ (hops op (by simp))
        (Or.inl hcfg) h0
      obtain ⟨hinvf, g, hgf, hlk⟩ := c10_runOps_preserve rest c1 cf hstep.1 hstep.2
        (fun o ho => hops o (by simp [ho])) hrun
      refine ⟨g, hgf, c10_toJSON_config hgf, ?_, ?_, ?_⟩
      · rw [hlk ("APP_NAME") (by simp)]
        rfl
      · rw [hlk ("APP_VERSION") (by simp)]
        rfl
      · rw [hlk ("APP_ROOT") (by simp)]
        rfl

/-- Package metadata for the C10 witness. -/
def c10pkg : Value :=
  .vObj (.cons ("name") (.vStr "demo") (.cons ("version") (.vStr "2.0.0") .nil))

/-- The C10 witness store: fresh configuration, package metadata already
cached. -/
def c10store : Config :=
  { appRoot := "/app", fileCache := [("/app/package.json", c10pkg)], config := none }

/-- The C10 witness disk (empty; everything needed is cached). -/
def c10disk : Disk := fun _ => none

/-- The single fragment `{db: 1}` used by the C10 witness. -/
def c10frag : Fields := .cons ("db") (.vNum 1) .nil

/-- The C10 witness call sequence. -/
def c10ops : List Op := [.opConfig (.vObj c10frag)]

/-- The C10 witness final store. -/
def c10final : Config :=
  { appRoot := "/app", fileCache := [("/app/package.json", c10pkg)],
    config := some (.vObj (mergeFields (defaultsFields c10pkg ("/app")) c10frag)) }

/-- C10 witness: one `addConfig` of `{db: 1}` on the fresh store leaves
the three default keys in the snapshot. -/
theorem c10_default_keys_seeded_witness :
    ∃ g, c10final.config = some (.vObj g) ∧
      c10final.toJSON c10disk = .ok (.vObj g, c10final, false) ∧
      lookupF ("APP_NAME") g = some (getField c10pkg ("name")) ∧
      lookupF ("APP_VERSION") g = some (getField c10pkg ("version")) ∧
      lookupF ("APP_ROOT") g = some (.vStr "/app") :=
  c10_default_keys_seeded c10disk ("/app") c10pkg c10store c10ops c10final
    (by rfl) (by rfl) (by rfl)
    (by
      intro p v h
      simp only [c10store, lookupPath] at h
      by_cases he : ("/app/package.json" : String) = p
      · rw [if_pos he] at h
        cases h
        rfl
      · rw [if_neg he] at h
        exact Option.noConfusion h)
    (by
      intro op ho
      simp only [c10ops, List.mem_singleton] at ho
      subst ho
      show (Value.vObj c10frag).avoids (["APP_NAME", "APP_VERSION", "APP_ROOT"]) = true
      rfl)
    (by simp [c10ops])
    (by rfl)

end HmpoConfig
